import Mathlib

/-!
# Hope-Os Cognitive Store — verification development

The repository's Python sources (`src/python_client/*.py`, `src/tests/test_hope.py`)
are gRPC / binding clients of an in-process Cognitive Store (memory layers,
emotion engine, content graph, vision ingestion) whose engine code is not part
of the checked-in sources.  Following the specification, the store is embedded
here as executable Lean definitions: rationals stand for the floating
intensities/importances, `Nat` for timestamps and identifiers.
-/

namespace HopeOs

/-- Modelled from the spec: clamping a value into a closed interval, used for
importances and emotion intensities ("clamped into [0.0, 1.0] if out of range"). -/
def clampQ (x lo hi : ℚ) : ℚ := if x < lo then lo else if hi < x then hi else x

theorem clampQ_mem (x lo hi : ℚ) (h : lo ≤ hi) :
    lo ≤ clampQ x lo hi ∧ clampQ x lo hi ≤ hi := by
  unfold clampQ
  split_ifs with h1 h2
  · exact ⟨le_refl _, h⟩
  · exact ⟨h, le_refl _⟩
  · exact ⟨le_of_not_lt h1, le_of_not_lt h2⟩

/-- Lower-cased character list of a string; recall matching is case-insensitive. -/
def lowerStr (s : String) : List Char := s.toList.map Char.toLower

/-- Modelled from the spec: whitespace tokenizer for recall queries
("a memory matches if any query token appears in its content").
`acc` holds the (reversed) characters of the token currently being read. -/
def tokensAux : List Char → List Char → List (List Char)
  | [], acc => if acc.isEmpty then [] else [acc.reverse]
  | c :: cs, acc =>
      if c = ' ' then
        if acc.isEmpty then tokensAux cs [] else acc.reverse :: tokensAux cs []
      else tokensAux cs (c :: acc)

/-- The lower-cased tokens of a query string. -/
def tokenize (s : String) : List (List Char) := tokensAux (lowerStr s) []

/-- Every token produced by `tokensAux l acc` occurs contiguously inside
`acc.reverse ++ l`. -/
theorem tokensAux_within :
    ∀ (l acc : List Char), ∀ t ∈ tokensAux l acc, t <:+: acc.reverse ++ l := by
  intro l
  induction l with
  | nil =>
      intro acc t ht
      simp only [tokensAux] at ht
      by_cases h : acc.isEmpty
      · simp [h] at ht
      · simp [h] at ht
        subst ht
        exact ⟨[], [], by simp⟩
  | cons c cs ih =>
      intro acc t ht
      simp only [tokensAux] at ht
      by_cases hc : c = ' '
      · subst hc
        by_cases h : acc.isEmpty
        · simp [h] at ht
          obtain ⟨u, v, huv⟩ := (by simpa using ih [] t ht : t <:+: cs)
          exact ⟨acc.reverse ++ ' ' :: u, v, by simp [← huv]⟩
        · simp [h] at ht
          rcases ht with h1 | h1
          · subst h1
            exact ⟨[], ' ' :: cs, by simp⟩
          · obtain ⟨u, v, huv⟩ := (by simpa using ih [] t h1 : t <:+: cs)
            exact ⟨acc.reverse ++ ' ' :: u, v, by simp [← huv]⟩
      · simp [hc] at ht
        have := ih (c :: acc) t ht
        simpa using this

/-- A token of `tokenize s` occurs contiguously inside the lower-cased
characters of `s`. -/
theorem tokenize_within (s : String) : ∀ t ∈ tokenize s, t <:+: lowerStr s := by
  intro t ht
  have := tokensAux_within (lowerStr s) [] t ht
  simpa using this

/-- Modelled from the spec: direct recall matching — the query matches a
content string when some lower-cased query token occurs inside the lower-cased
content; a blank query (no tokens) matches everything (`Recall("", …)` lists
all entries passing the filters). -/
def queryMatches (q content : String) : Bool :=
  let ts := tokenize q
  ts.isEmpty || ts.any fun t => decide (t <:+: lowerStr content)

/-- A query always directly matches its own text. -/
theorem queryMatches_self (s : String) : queryMatches s s = true := by
  unfold queryMatches
  by_cases h : (tokenize s).isEmpty
  · simp [h]
  · simp only [h, Bool.false_or]
    rw [List.any_eq_true]
    rcases List.exists_mem_of_ne_nil (tokenize s) (by simpa [List.isEmpty_iff] using h) with ⟨t, ht⟩
    exact ⟨t, ht, decide_eq_true (tokenize_within s t ht)⟩

/-! ## Content Graph -/

/-- Modelled from the spec: a Content Graph node ("block") with typed content;
`memory_ref` is the back-reference to a MemoryEntry id carried by nodes that
the Memory Store creates (§3 GraphNode + the MemoryEntry/GraphNode invariant). -/
structure GraphNode where
  id : Nat
  content : String
  kind : String
  created_at : Nat
  memory_ref : Option Nat
deriving DecidableEq

/-- Modelled from the spec: a weighted association between two nodes (§3 GraphEdge). -/
structure GraphEdge where
  from_id : Nat
  to_id : Nat
  weight : ℚ
deriving DecidableEq

/-- Modelled from the spec: the Content Graph — a multigraph of blocks and
weighted edges; `nextId` yields process-lifetime-unique node identifiers. -/
structure CodeGraph where
  blocks : List GraphNode
  edges : List GraphEdge
  nextId : Nat
deriving DecidableEq

/-- The empty Content Graph. -/
def CodeGraph.empty : CodeGraph := ⟨[], [], 0⟩

/-- Modelled from the spec: `add_block(content, kind) → id` — creates a node,
always succeeds, id unique for the process lifetime (§4.3). -/
def add_block (g : CodeGraph) (content kind : String) (now : Nat) : Nat × CodeGraph :=
  let node : GraphNode := ⟨g.nextId, content, kind, now, none⟩
  (g.nextId, ⟨node :: g.blocks, g.edges, g.nextId + 1⟩)

/-- Modelled from the spec: `get_block(id) → node or NotFound` (§4.3). -/
def get_block (g : CodeGraph) (i : Nat) : Option GraphNode :=
  g.blocks.find? fun n => n.id == i

/-- Result of `connect`. -/
inductive ConnectResult where
  | success
  | notFound
deriving DecidableEq

/-- Modelled from the spec: `connect(from_id, to_id, weight)` fails with
NotFound if either endpoint does not exist; otherwise appends one more edge
(multigraph semantics, §4.3). -/
def connect (g : CodeGraph) (a b : Nat) (w : ℚ) : ConnectResult × CodeGraph :=
  if (g.blocks.any fun n => n.id == a) && (g.blocks.any fun n => n.id == b) then
    (.success, ⟨g.blocks, ⟨a, b, w⟩ :: g.edges, g.nextId⟩)
  else
    (.notFound, g)

/-- Counters returned by `stats()` (§4.3). -/
structure GraphStats where
  blocks : Nat
  connections : Nat
deriving DecidableEq

/-- Modelled from the spec: `stats() → {blocks, connections}` (§4.3). -/
def stats (g : CodeGraph) : GraphStats := ⟨g.blocks.length, g.edges.length⟩

/-! ## Memory Store -/

/-- Modelled from the spec: a layered, importance-scored memory entry (§3). -/
structure MemoryEntry where
  id : Nat
  content : String
  layer : String
  importance : ℚ
  emotional_tag : Option String
  created_at : Nat
  graph_node_id : Nat
deriving DecidableEq

/-- Modelled from the spec: the Memory Store together with the Content Graph it
materializes entries into; `nextMemId` yields unique entry identifiers. -/
structure HopeStore where
  memories : List MemoryEntry
  graph : CodeGraph
  nextMemId : Nat
deriving DecidableEq

/-- The empty store. -/
def HopeStore.empty : HopeStore := ⟨[], CodeGraph.empty, 0⟩

/-- Result of `Remember`. -/
inductive RememberResult where
  | ok (id : Nat)
  | invalidInput
deriving DecidableEq

/-- Modelled from the spec: `Remember(content, layer, importance, emotional_tag)`
— requires non-empty content, clamps importance into [0,1], accepts any layer
string verbatim, and creates exactly one GraphNode of kind `memory` linked back
to the new entry (§4.1). -/
def remember (s : HopeStore) (content layer : String) (importance : ℚ)
    (tag : Option String) (now : Nat) : RememberResult × HopeStore :=
  if content = "" then (.invalidInput, s)
  else
    let mid := s.nextMemId
    let node : GraphNode := ⟨s.graph.nextId, content, "memory", now, some mid⟩
    let entry : MemoryEntry :=
      ⟨mid, content, layer, clampQ importance 0 1, tag, now, node.id⟩
    (.ok mid,
     ⟨entry :: s.memories,
      ⟨node :: s.graph.blocks, s.graph.edges, s.graph.nextId + 1⟩,
      mid + 1⟩)

/-! ## Recall -/

/-- Modelled from the spec: the edge-weight threshold above which one-hop
associative recall follows a connection (§4.1 "edge weight above a threshold"). -/
def assocThreshold : ℚ := mkRat 1 2

/-- Whether entry `e` passes the layer and minimum-importance filters of a
Recall call (§4.1: empty layer means all layers, otherwise exact match). -/
def passesFilters (layer : String) (minImp : ℚ) (e : MemoryEntry) : Bool :=
  (layer == "" || e.layer == layer) && decide (minImp ≤ e.importance)

/-- Modelled from the spec: associative recall — `e` is reachable within one
hop in the Content Graph (either edge direction) from some directly-matching
entry's node, over an edge whose weight is above the threshold (§4.1). -/
def assocMatches (s : HopeStore) (q : String) (e : MemoryEntry) : Bool :=
  s.memories.any fun d =>
    queryMatches q d.content &&
    s.graph.edges.any fun ed =>
      decide (assocThreshold ≤ ed.weight) &&
      ((ed.from_id == d.graph_node_id && ed.to_id == e.graph_node_id) ||
       (ed.to_id == d.graph_node_id && ed.from_id == e.graph_node_id))

/-- A candidate result of Recall: the entry plus whether it matched directly
(`direct = true`) or only associatively. -/
structure Scored where
  entry : MemoryEntry
  direct : Bool
deriving DecidableEq

/-- Modelled from the spec: the Recall ranking contract — primary key
importance descending, secondary key `created_at` descending, tertiary key
direct match before associative match (§4.1). -/
def rankRel (a b : Scored) : Prop :=
  b.entry.importance < a.entry.importance ∨
    (a.entry.importance = b.entry.importance ∧
      (b.entry.created_at < a.entry.created_at ∨
        (a.entry.created_at = b.entry.created_at ∧ (b.direct = true → a.direct = true))))

instance : DecidableRel rankRel := fun a b => by
  unfold rankRel; infer_instance

instance : IsTotal Scored rankRel := by
  constructor
  intro a b
  rcases lt_trichotomy a.entry.importance b.entry.importance with h | h | h
  · exact Or.inr (Or.inl h)
  · rcases Nat.lt_trichotomy a.entry.created_at b.entry.created_at with h2 | h2 | h2
    · exact Or.inr (Or.inr ⟨h.symm, Or.inl h2⟩)
    · by_cases hd : a.direct = true
      · exact Or.inl (Or.inr ⟨h, Or.inr ⟨h2, fun _ => hd⟩⟩)
      · exact Or.inr (Or.inr ⟨h.symm, Or.inr ⟨h2.symm, fun ha => absurd ha hd⟩⟩)
    · exact Or.inl (Or.inr ⟨h, Or.inl h2⟩)
  · exact Or.inl (Or.inl h)

instance : IsTrans Scored rankRel := by
  constructor
  intro a b c hab hbc
  rcases hab with h1 | ⟨h1, h1'⟩
  · rcases hbc with h2 | ⟨h2, _⟩
    · exact Or.inl (h2.trans h1)
    · exact Or.inl (h2 ▸ h1)
  · rcases hbc with h2 | ⟨h2, h2'⟩
    · exact Or.inl (h1.symm ▸ h2)
    · refine Or.inr ⟨h1.trans h2, ?_⟩
      rcases h1' with h3 | ⟨h3, h3'⟩
      · rcases h2' with h4 | ⟨h4, _⟩
        · exact Or.inl (h4.trans h3)
        · exact Or.inl (h4 ▸ h3)
      · rcases h2' with h4 | ⟨h4, h4'⟩
        · exact Or.inl (h3.symm ▸ h4)
        · exact Or.inr ⟨h3.trans h4, fun hc => h3' (h4' hc)⟩

/-- The filtered, scored candidates of a Recall call, ranked by `rankRel`:
direct matches and one-hop associative matches that pass the filters (§4.1). -/
def rankedScored (s : HopeStore) (q layer : String) (minImp : ℚ) : List Scored :=
  let directs := s.memories.filter fun e =>
    passesFilters layer minImp e && queryMatches q e.content
  let assocs := s.memories.filter fun e =>
    passesFilters layer minImp e && !queryMatches q e.content && assocMatches s q e
  List.insertionSort rankRel
    (directs.map (fun e => ⟨e, true⟩) ++ assocs.map (fun e => ⟨e, false⟩))

/-- The ranked entries returned by a Recall call, before the limit is applied. -/
def rankedEntries (s : HopeStore) (q layer : String) (minImp : ℚ) : List MemoryEntry :=
  (rankedScored s q layer minImp).map Scored.entry

/-- Errors of the store's read path (§7 taxonomy). -/
inductive RecallError where
  | invalidInput
deriving DecidableEq

instance {ε α : Type} [DecidableEq ε] [DecidableEq α] : DecidableEq (Except ε α) := fun a b =>
  match a, b with
  | .ok x, .ok y =>
      if h : x = y then .isTrue (by rw [h]) else .isFalse (by simp [h])
  | .error x, .error y =>
      if h : x = y then .isTrue (by rw [h]) else .isFalse (by simp [h])
  | .ok _, .error _ => .isFalse (by simp)
  | .error _, .ok _ => .isFalse (by simp)

/-- Modelled from the spec: `Recall(query, layer, limit, min_importance)` —
a negative limit is an input error, limit 0 means "all", a positive limit
truncates the ranked sequence (§4.1). -/
def Recall (s : HopeStore) (q layer : String) (limit : Int) (minImp : ℚ) :
    Except RecallError (List MemoryEntry) :=
  if limit < 0 then .error .invalidInput
  else
    let ranked := rankedEntries s q layer minImp
    .ok (if limit = 0 then ranked else ranked.take limit.toNat)

/-! ## Emotion Engine -/

/-- Modelled from the spec: the fixed enumerated emotion set, conventionally 21
entries, led by the names the specification and the client scripts use
(joy, curiosity, love, pride, trust, sadness, fear, excitement, serenity,
gratitude, hope, …); declaration order is the dominant-emotion tie-break. -/
def emotionNames : List String :=
  ["joy", "curiosity", "love", "pride", "trust", "sadness", "fear",
   "excitement", "serenity", "gratitude", "hope", "anger", "surprise",
   "disgust", "anticipation", "nostalgia", "loneliness", "empathy",
   "determination", "confusion", "wonder"]

/-- Modelled from the spec: the emotion state — a mapping from emotion name to
intensity, the last trigger text, and the time of the last update (decay is
computed lazily at read time from the elapsed time, §5). -/
structure EmotionState where
  intensities : String → ℚ
  last_trigger : String
  last_update : Nat

/-- The newborn emotion state: every intensity at the neutral baseline 0. -/
def EmotionState.initial : EmotionState := ⟨fun _ => 0, "", 0⟩

/-- Modelled from the spec: the blend weight kept for the old value in
`Feel` — `new = clamp(old*decay + incoming*(1-decay), 0, 1)` (§4.2). -/
def blendDecay : ℚ := mkRat 3 10

/-- Modelled from the spec: `Feel(emotions, trigger)` — a blend, not a replace:
each named emotion becomes a clamped weighted combination of its previous value
and the incoming value; emotions not mentioned keep their stored value (§4.2). -/
def feel (s : EmotionState) (m : List (String × ℚ)) (trigger : String) : EmotionState :=
  { intensities := fun n =>
      match m.lookup n with
      | some v => clampQ (s.intensities n * blendDecay + v * (1 - blendDecay)) 0 1
      | none => s.intensities n,
    last_trigger := trigger,
    last_update := s.last_update }

/-- Modelled from the spec: the small fixed passive-decay rate per time unit. -/
def decayRate : ℚ := mkRat 1 10

/-- Modelled from the spec: passive decay over `elapsed` time units — each
intensity drifts multiplicatively toward the neutral baseline 0, a
deterministic function of the decay rate and the elapsed time (§4.2, §5). -/
def decayed (s : EmotionState) (elapsed : Nat) : EmotionState :=
  { s with intensities := fun n => s.intensities n * (1 - decayRate) ^ elapsed }

/-- Modelled from the spec: reading the emotion state at time `now` applies the
passive decay lazily, from the elapsed wall-clock time since the last update —
there is no background timer (§5). -/
def getState (s : EmotionState) (now : Nat) : EmotionState :=
  decayed s (now - s.last_update)

/-- Modelled from the spec: the derived dominant emotion — the name with
maximum intensity, ties broken by declaration order (first-declared wins). -/
def dominantEmotion (s : EmotionState) : String × ℚ :=
  emotionNames.foldl
    (fun best n => if best.2 < s.intensities n then (n, s.intensities n) else best)
    ("neutral", 0)

/-- All stored intensities (over the fixed emotion set) lie in [0, 1]. -/
def inRangeAll (s : EmotionState) : Prop :=
  ∀ n ∈ emotionNames, 0 ≤ s.intensities n ∧ s.intensities n ≤ 1

instance (s : EmotionState) : Decidable (inRangeAll s) := by
  unfold inRangeAll; infer_instance

/-! ## Vision Ingestion -/

/-- Recognized raster formats, detected from magic bytes (§4.4). -/
inductive ImageFormat where
  | png
  | jpeg
  | gif
  | bmp
deriving DecidableEq

/-- Modelled from the spec: format detection from the byte stream's header
("format (from magic bytes)", §4.4); bytes are modelled as `List Nat`. -/
def detectFormat (bytes : List Nat) : Option ImageFormat :=
  if bytes.take 8 = [0x89, 0x50, 0x4E, 0x47, 0x0D, 0x0A, 0x1A, 0x0A] then some .png
  else if bytes.take 3 = [0xFF, 0xD8, 0xFF] then some .jpeg
  else if bytes.take 4 = [0x47, 0x49, 0x46, 0x38] then some .gif
  else if bytes.take 2 = [0x42, 0x4D] then some .bmp
  else none

/-- The analysis record returned by a successful See call (§4.4, §6). -/
structure VisualAnalysis where
  format : ImageFormat
  width : Nat
  height : Nat
  file_size : Nat
  content_hash : Nat
deriving DecidableEq

/-- Modelled from the spec: a content-addressed digest of the raw bytes used
for de-duplication — identical payloads yield identical hashes (§4.4). -/
def contentHash (bytes : List Nat) : Nat :=
  bytes.foldl (fun h b => (h * 131 + b) % 1000000007) 5381

/-- Modelled from the spec: width/height extraction from the header — the
big-endian IHDR fields for PNG; other formats fall back to 0x0 here since no
claim depends on their header layout. -/
def parseDims (fmt : ImageFormat) (bytes : List Nat) : Nat × Nat :=
  match fmt with
  | .png =>
      ((bytes.getD 16 0) * 16777216 + (bytes.getD 17 0) * 65536 +
         (bytes.getD 18 0) * 256 + bytes.getD 19 0,
       (bytes.getD 20 0) * 16777216 + (bytes.getD 21 0) * 65536 +
         (bytes.getD 22 0) * 256 + bytes.getD 23 0)
  | _ => (0, 0)

/-- The structured result of a See call: never an exception — failures are
reported through `success = false` plus an error string (§4.4, §7). -/
structure SeeResult where
  success : Bool
  id : Option Nat
  error : Option String
  analysis : Option VisualAnalysis
deriving DecidableEq

/-- Modelled from the spec: `See(image_bytes, description, context, importance,
store_in_memory)` — fails with EmptyInput on empty bytes and DecodeError on an
unrecognized header, always returning a structured result; on success it
creates a MemoryEntry (layer `long_term`) plus a GraphNode when
`store_in_memory` is set (§4.4). -/
def see (s : HopeStore) (bytes : List Nat) (desc : String) (importance : ℚ)
    (store_in_memory : Bool) (now : Nat) : SeeResult × HopeStore :=
  if bytes.isEmpty then
    ({ success := false, id := none, error := some "EmptyInput", analysis := none }, s)
  else
    match detectFormat bytes with
    | none =>
        ({ success := false, id := none, error := some "DecodeError", analysis := none }, s)
    | some fmt =>
        let dims := parseDims fmt bytes
        let analysis : VisualAnalysis :=
          ⟨fmt, dims.1, dims.2, bytes.length, contentHash bytes⟩
        if store_in_memory then
          match remember s ("image: " ++ desc) "long_term" importance none now with
          | (.ok mid, s') =>
              ({ success := true, id := some mid, error := none, analysis := some analysis }, s')
          | (.invalidInput, s') =>
              ({ success := true, id := none, error := none, analysis := some analysis }, s')
        else
          ({ success := true, id := none, error := none, analysis := some analysis }, s)

/-! ## Claims -/

/-- Claim C10: for every content string and kind string, calling `get_block` on
the id returned by `add_block(content, kind)` succeeds (does not return
NotFound) and yields a node whose content field equals the content passed to
`add_block`. -/
theorem add_block_get_block_roundtrip (g : CodeGraph) (c k : String) (now : Nat) :
    ∃ n : GraphNode,
      get_block (add_block g c k now).2 (add_block g c k now).1 = some n ∧ n.content = c := by
  refine ⟨⟨g.nextId, c, k, now, none⟩, ?_, rfl⟩
  simp [get_block, add_block, List.find?]

/-- Claim C3: for every pair of node ids where at least one endpoint does not
exist in the Content Graph, `connect(from_id, to_id, weight)` returns NotFound
and leaves the graph — in particular `stats().connections` — unchanged. -/
theorem connect_notFound_preserves_graph (g : CodeGraph) (a b : Nat) (w : ℚ)
    (h : get_block g a = none ∨ get_block g b = none) :
    (connect g a b w).1 = .notFound ∧ (connect g a b w).2 = g ∧
      (stats (connect g a b w).2).connections = (stats g).connections := by
  have hcond : ((g.blocks.any fun n => n.id == a) && (g.blocks.any fun n => n.id == b)) = false := by
    rcases h with h | h
    · have : ∀ n ∈ g.blocks, ¬(n.id == a) = true := List.find?_eq_none.mp h
      have ha : (g.blocks.any fun n => n.id == a) = false := by
        rw [Bool.eq_false_iff]
        intro hany
        rcases List.any_eq_true.mp hany with ⟨n, hn, hna⟩
        exact this n hn hna
      simp [ha]
    · have : ∀ n ∈ g.blocks, ¬(n.id == b) = true := List.find?_eq_none.mp h
      have hb : (g.blocks.any fun n => n.id == b) = false := by
        rw [Bool.eq_false_iff]
        intro hany
        rcases List.any_eq_true.mp hany with ⟨n, hn, hnb⟩
        exact this n hn hnb
      simp [hb]
  unfold connect
  rw [hcond]
  exact ⟨rfl, rfl, rfl⟩

/-- Witness for C3: connecting two ids in the empty graph fails with NotFound
and leaves the connection count unchanged. -/
theorem connect_notFound_preserves_graph_witness :
    (get_block CodeGraph.empty 0 = none ∨ get_block CodeGraph.empty 1 = none) ∧
      (connect CodeGraph.empty 0 1 (mkRat 8 10)).1 = .notFound ∧
      (connect CodeGraph.empty 0 1 (mkRat 8 10)).2 = CodeGraph.empty ∧
      (stats (connect CodeGraph.empty 0 1 (mkRat 8 10)).2).connections =
        (stats CodeGraph.empty).connections :=
  ⟨Or.inl (by decide),
   connect_notFound_preserves_graph CodeGraph.empty 0 1 (mkRat 8 10) (Or.inl (by decide))⟩

/-- Claim C6: for every See call, empty `image_bytes` fails with EmptyInput, an
unrecognized header fails with DecodeError, and in both failure cases See
returns a structured result with `success = false` and an error string instead
of raising — the store is left untouched. -/
theorem see_structured_errors (s : HopeStore) (bytes : List Nat) (desc : String)
    (imp : ℚ) (stm : Bool) (now : Nat) :
    (bytes = [] →
      see s bytes desc imp stm now =
        ({ success := false, id := none, error := some "EmptyInput", analysis := none }, s)) ∧
    (bytes ≠ [] → detectFormat bytes = none →
      see s bytes desc imp stm now =
        ({ success := false, id := none, error := some "DecodeError", analysis := none }, s)) := by
  constructor
  · intro hb
    subst hb
    rfl
  · intro hb hf
    unfold see
    rw [if_neg (by simpa [List.isEmpty_iff] using hb), hf]

/-- Witness for C6: an empty payload reports EmptyInput, a one-byte payload with
no recognized magic header reports DecodeError; both leave the store unchanged. -/
theorem see_structured_errors_witness :
    see HopeStore.empty [] "d" 1 true 0 =
      ({ success := false, id := none, error := some "EmptyInput", analysis := none },
        HopeStore.empty) ∧
      see HopeStore.empty [0] "d" 1 true 0 =
        ({ success := false, id := none, error := some "DecodeError", analysis := none },
          HopeStore.empty) :=
  ⟨(see_structured_errors HopeStore.empty [] "d" 1 true 0).1 rfl,
   (see_structured_errors HopeStore.empty [0] "d" 1 true 0).2 (by decide) (by decide)⟩

theorem blendDecay_eq : blendDecay = 3/10 := by
  rw [blendDecay, Rat.mkRat_eq_divInt, Rat.divInt_eq_div]
  norm_num

theorem decayRate_eq : decayRate = 1/10 := by
  rw [decayRate, Rat.mkRat_eq_divInt, Rat.divInt_eq_div]
  norm_num

/-- Claim C2: every Feel call keeps every stored emotion intensity in [0, 1],
even when an input intensity is out of range; in particular `joy = 1.5` is
clamped to a stored joy of exactly 1. -/
theorem feel_clamps_intensities (s : EmotionState) (m : List (String × ℚ)) (trig : String)
    (hs : inRangeAll s) :
    inRangeAll (feel s m trig) ∧
      (feel s [("joy", mkRat 3 2)] trig).intensities "joy" = 1 := by
  constructor
  · intro n hn
    show 0 ≤ (feel s m trig).intensities n ∧ (feel s m trig).intensities n ≤ 1
    unfold feel
    dsimp only
    cases h : m.lookup n with
    | some v => exact clampQ_mem _ 0 1 (by norm_num)
    | none => exact hs n hn
  · have hjoy : "joy" ∈ emotionNames := by simp [emotionNames]
    have h0 : 0 ≤ s.intensities "joy" := (hs _ hjoy).1
    unfold feel
    dsimp only
    have hlook : List.lookup "joy" [("joy", mkRat 3 2)] = some (mkRat 3 2) := by rfl
    rw [hlook]
    dsimp only
    have h32 : (mkRat 3 2 : ℚ) = 3/2 := by
      rw [Rat.mkRat_eq_divInt, Rat.divInt_eq_div]; norm_num
    have hval : (1 : ℚ) <
        s.intensities "joy" * blendDecay + mkRat 3 2 * (1 - blendDecay) := by
      rw [blendDecay_eq, h32]
      nlinarith
    unfold clampQ
    rw [if_neg (by linarith), if_pos hval]

/-- Witness for C2: from the all-zero newborn state, a Feel call (with an
empty mapping, and with joy = 1.5) keeps all intensities in range and stores
joy = 1. -/
theorem feel_clamps_intensities_witness :
    inRangeAll (feel EmotionState.initial [] "t") ∧
      (feel EmotionState.initial [("joy", mkRat 3 2)] "t").intensities "joy" = 1 :=
  ⟨(feel_clamps_intensities EmotionState.initial [] "t" (by decide)).1,
   (feel_clamps_intensities EmotionState.initial [("joy", mkRat 3 2)] "t" (by decide)).2⟩

/-- Claim C5: with the fixed decay rate and any elapsed time N > 0 and no new
triggers, every intensity moves strictly closer to the neutral baseline 0 or
stays at it (staying only when already at the baseline); the decay is the
deterministic function `decayed` of the rate and the elapsed time, applied
lazily by the read operation `getState`. -/
theorem decay_moves_toward_baseline (s : EmotionState) (N : Nat) (hN : 0 < N)
    (hs : inRangeAll s) :
    ∀ n ∈ emotionNames,
      0 ≤ (decayed s N).intensities n ∧
      (decayed s N).intensities n ≤ s.intensities n ∧
      (s.intensities n ≠ 0 → (decayed s N).intensities n < s.intensities n) ∧
      (s.intensities n = 0 → (decayed s N).intensities n = 0) := by
  intro n hn
  have hx := hs n hn
  have hfac0 : (0 : ℚ) ≤ (1 - decayRate) ^ N := by
    rw [decayRate_eq]
    positivity
  have hfac1 : (1 - decayRate) ^ N < 1 := by
    rw [decayRate_eq]
    apply pow_lt_one₀ (by norm_num) (by norm_num) hN.ne'
  unfold decayed
  dsimp only
  refine ⟨mul_nonneg hx.1 hfac0, ?_, ?_, ?_⟩
  · exact mul_le_of_le_one_right hx.1 hfac1.le
  · intro hne
    have hpos : 0 < s.intensities n := lt_of_le_of_ne hx.1 (Ne.symm hne)
    exact mul_lt_of_lt_one_right hpos hfac1
  · intro h0
    rw [h0, zero_mul]

/-- A concrete emotion state used to witness the decay claim. -/
def decayDemoState : EmotionState :=
  ⟨fun n => if n = "joy" then mkRat 1 2 else 0, "demo", 0⟩

/-- Witness for C5: after one time unit with no triggers, the joy intensity of
a concrete state strictly decreases toward the baseline. -/
theorem decay_moves_toward_baseline_witness :
    (0 < 1 ∧ inRangeAll decayDemoState ∧ decayDemoState.intensities "joy" ≠ 0) ∧
      (decayed decayDemoState 1).intensities "joy" < decayDemoState.intensities "joy" :=
  ⟨⟨by decide, by decide, by decide⟩,
   (decay_moves_toward_baseline decayDemoState 1 (by decide) (by decide) "joy"
      (by decide)).2.2.1 (by decide)⟩

/-- The Feel mapping, naming only some emotions, sent by the SDK demo's Feel test. -/
def demoFeelMap : List (String × ℚ) :=
  [("joy", mkRat 9 10), ("curiosity", mkRat 8 10), ("pride", mkRat 7 10),
   ("excitement", mkRat 6 10)]

/-- Claim C8: Feel is a blend over exactly the named emotions — every emotion
name not mentioned in the call keeps its previous stored intensity (passive
decay being applied lazily at read time, not by Feel), and each named emotion
becomes the clamped weighted combination of its old value and the incoming
value. -/
theorem feel_frame_effect (s : EmotionState) (m : List (String × ℚ)) (trig : String) :
    (∀ n, m.lookup n = none → (feel s m trig).intensities n = s.intensities n) ∧
    (∀ n v, m.lookup n = some v →
      (feel s m trig).intensities n =
        clampQ (s.intensities n * blendDecay + v * (1 - blendDecay)) 0 1) := by
  constructor
  · intro n h
    unfold feel
    dsimp only
    rw [h]
  · intro n v h
    unfold feel
    dsimp only
    rw [h]

/-- Witness for C8: the demo's Feel call names joy, curiosity, pride and
excitement; sadness is untouched while joy is updated to the blend. -/
theorem feel_frame_effect_witness :
    (List.lookup "sadness" demoFeelMap = none ∧
      (feel decayDemoState demoFeelMap "demo").intensities "sadness" =
        decayDemoState.intensities "sadness") ∧
    (List.lookup "joy" demoFeelMap = some (mkRat 9 10) ∧
      (feel decayDemoState demoFeelMap "demo").intensities "joy" =
        clampQ (decayDemoState.intensities "joy" * blendDecay +
          mkRat 9 10 * (1 - blendDecay)) 0 1) :=
  ⟨⟨by decide, (feel_frame_effect decayDemoState demoFeelMap "demo").1 "sadness" (by decide)⟩,
   ⟨by decide, (feel_frame_effect decayDemoState demoFeelMap "demo").2 "joy" (mkRat 9 10)
      (by decide)⟩⟩

/-- Membership in the ranked Recall result is exactly: the entry is stored,
passes the layer/importance filters, and matches directly or associatively. -/
theorem mem_rankedEntries (s : HopeStore) (q layer : String) (minImp : ℚ) (e : MemoryEntry) :
    e ∈ rankedEntries s q layer minImp ↔
      e ∈ s.memories ∧ passesFilters layer minImp e = true ∧
        (queryMatches q e.content = true ∨ assocMatches s q e = true) := by
  unfold rankedEntries rankedScored
  constructor
  · intro he
    rcases List.mem_map.mp he with ⟨sc, hsc, rfl⟩
    rw [List.mem_insertionSort] at hsc
    rcases List.mem_append.mp hsc with h | h
    · rcases List.mem_map.mp h with ⟨x, hx, hxe⟩
      rcases List.mem_filter.mp hx with ⟨hmem, hp⟩
      rw [Bool.and_eq_true] at hp
      cases hxe
      exact ⟨hmem, hp.1, Or.inl hp.2⟩
    · rcases List.mem_map.mp h with ⟨x, hx, hxe⟩
      rcases List.mem_filter.mp hx with ⟨hmem, hp⟩
      rw [Bool.and_eq_true, Bool.and_eq_true] at hp
      cases hxe
      exact ⟨hmem, hp.1.1, Or.inr hp.2⟩
  · rintro ⟨hmem, hp, hmatch⟩
    by_cases hq : queryMatches q e.content = true
    · refine List.mem_map.mpr ⟨⟨e, true⟩, ?_, rfl⟩
      rw [List.mem_insertionSort]
      refine List.mem_append.mpr (Or.inl (List.mem_map.mpr
        ⟨e, List.mem_filter.mpr ⟨hmem, ?_⟩, rfl⟩))
      rw [Bool.and_eq_true]
      exact ⟨hp, hq⟩
    · have ha : assocMatches s q e = true := by
        rcases hmatch with h | h
        · exact absurd h hq
        · exact h
      refine List.mem_map.mpr ⟨⟨e, false⟩, ?_, rfl⟩
      rw [List.mem_insertionSort]
      refine List.mem_append.mpr (Or.inr (List.mem_map.mpr
        ⟨e, List.mem_filter.mpr ⟨hmem, ?_⟩, rfl⟩))
      rw [Bool.and_eq_true, Bool.and_eq_true]
      refine ⟨⟨hp, ?_⟩, ha⟩
      rw [Bool.not_eq_true']
      exact Bool.not_eq_true _ ▸ hq

/-- Claim C9: a Recall limit of 0 passed by the caller means "no limit" — the
full ranked match list comes back — while every strictly negative limit is
rejected as InvalidInput rather than clamped or treated as unlimited. -/
theorem recall_limit_semantics (s : HopeStore) (q layer : String) (minImp : ℚ) (lim : Int) :
    (lim < 0 → Recall s q layer lim minImp = .error .invalidInput) ∧
    Recall s q layer 0 minImp = .ok (rankedEntries s q layer minImp) ∧
    (∀ e, e ∈ rankedEntries s q layer minImp ↔
      e ∈ s.memories ∧ passesFilters layer minImp e = true ∧
        (queryMatches q e.content = true ∨ assocMatches s q e = true)) := by
  refine ⟨?_, ?_, fun e => mem_rankedEntries s q layer minImp e⟩
  · intro h
    unfold Recall
    rw [if_pos h]
  · unfold Recall
    norm_num

/-- Witness for C9: Recall with limit -1 on the empty store reports
InvalidInput. -/
theorem recall_limit_semantics_witness :
    ((-1 : Int) < 0) ∧ Recall HopeStore.empty "q" "" (-1) 0 = .error .invalidInput :=
  ⟨by decide, (recall_limit_semantics HopeStore.empty "q" "" 0 (-1)).1 (by decide)⟩

/-- Claim C7: after a successful Remember with non-empty content X, a Recall
with query X (all layers, min_importance 0, no limit) returns a sequence
containing the new entry — any query token of X appears, case-insensitively,
in X itself. -/
theorem remember_recall_roundtrip (s : HopeStore) (content layer : String)
    (imp : ℚ) (tag : Option String) (now : Nat) (hc : content ≠ "") :
    ∃ res, Recall (remember s content layer imp tag now).2 content "" 0 0 = .ok res ∧
      ∃ e, e ∈ res ∧ e.content = content ∧ e.id = s.nextMemId := by
  have hrem : (remember s content layer imp tag now).2 =
      ⟨(⟨s.nextMemId, content, layer, clampQ imp 0 1, tag, now, s.graph.nextId⟩ :
          MemoryEntry) :: s.memories,
       ⟨(⟨s.graph.nextId, content, "memory", now, some s.nextMemId⟩ : GraphNode) ::
          s.graph.blocks, s.graph.edges, s.graph.nextId + 1⟩,
       s.nextMemId + 1⟩ := by
    unfold remember
    rw [if_neg hc]
  refine ⟨rankedEntries (remember s content layer imp tag now).2 content "" 0, ?_, ?_⟩
  · unfold Recall
    norm_num
  · refine ⟨⟨s.nextMemId, content, layer, clampQ imp 0 1, tag, now, s.graph.nextId⟩,
      ?_, rfl, rfl⟩
    rw [mem_rankedEntries]
    refine ⟨?_, ?_, Or.inl (queryMatches_self content)⟩
    · rw [hrem]
      exact List.mem_cons_self _ _
    · unfold passesFilters
      rw [Bool.and_eq_true]
      constructor
      · rw [Bool.or_eq_true]
        exact Or.inl (by decide)
      · exact decide_eq_true (clampQ_mem imp 0 1 (by norm_num)).1

/-- Witness for C7: remembering "Integration test content" in the empty store
and recalling it with the same query returns the entry. -/
theorem remember_recall_roundtrip_witness :
    ("Integration test content" ≠ "") ∧
      ∃ res,
        Recall (remember HopeStore.empty "Integration test content" "long_term"
            (mkRat 9 10) none 7).2 "Integration test content" "" 0 0 = .ok res ∧
        ∃ e, e ∈ res ∧ e.content = "Integration test content" ∧
          e.id = HopeStore.empty.nextMemId :=
  ⟨by decide,
   remember_recall_roundtrip HopeStore.empty "Integration test content" "long_term"
     (mkRat 9 10) none 7 (by decide)⟩

/-- The graph nodes that carry a back-reference to memory-entry id `i`. -/
def nodesFor (s : HopeStore) (i : Nat) : List GraphNode :=
  s.graph.blocks.filter fun n => n.memory_ref == some i

/-- Modelled from the spec invariant: every MemoryEntry has exactly one
corresponding graph node, of kind `memory`, carrying a back-reference to the
entry's id and named by the entry's `graph_node_id` (§3). -/
def storeInv (s : HopeStore) : Prop :=
  ∀ e ∈ s.memories, (nodesFor s e.id).length = 1 ∧
    ∀ n ∈ nodesFor s e.id, n.id = e.graph_node_id ∧ n.kind = "memory"

/-- Identifier freshness: stored ids and node back-references stay below the
allocation counter, so newly allocated ids never collide. -/
def freshIds (s : HopeStore) : Prop :=
  (∀ e ∈ s.memories, e.id < s.nextMemId) ∧
  (∀ n ∈ s.graph.blocks, ∀ i, n.memory_ref = some i → i < s.nextMemId)

/-- The store's well-formedness: the entry/node invariant plus id freshness. -/
def wellFormed (s : HopeStore) : Prop := storeInv s ∧ freshIds s

theorem wellFormed_empty : wellFormed HopeStore.empty := by
  refine ⟨?_, ?_, ?_⟩ <;> intro e he <;> simp [HopeStore.empty, CodeGraph.empty] at he

/-- Claim C4: every successful Remember creates exactly one GraphNode, of kind
`memory`, carrying a back-reference to the new MemoryEntry's id; and the
invariant that every MemoryEntry has exactly one such graph node is preserved. -/
theorem remember_creates_one_graph_node (s : HopeStore) (content layer : String)
    (imp : ℚ) (tag : Option String) (now : Nat) (hw : wellFormed s) (hc : content ≠ "") :
    (remember s content layer imp tag now).2.graph.blocks.length =
      s.graph.blocks.length + 1 ∧
    (∃ node : GraphNode,
      (remember s content layer imp tag now).2.graph.blocks = node :: s.graph.blocks ∧
      node.kind = "memory" ∧ node.memory_ref = some s.nextMemId) ∧
    wellFormed (remember s content layer imp tag now).2 := by
  obtain ⟨hinv, hfe, hfn⟩ := hw
  have hrem : (remember s content layer imp tag now).2 =
      ⟨(⟨s.nextMemId, content, layer, clampQ imp 0 1, tag, now, s.graph.nextId⟩ :
          MemoryEntry) :: s.memories,
       ⟨(⟨s.graph.nextId, content, "memory", now, some s.nextMemId⟩ : GraphNode) ::
          s.graph.blocks, s.graph.edges, s.graph.nextId + 1⟩,
       s.nextMemId + 1⟩ := by
    unfold remember
    rw [if_neg hc]
  rw [hrem]
  refine ⟨by simp, ⟨⟨s.graph.nextId, content, "memory", now, some s.nextMemId⟩,
    rfl, rfl, rfl⟩, ?_, ?_, ?_⟩
  · -- storeInv of the post-store
    intro e he
    rcases List.mem_cons.mp he with rfl | he
    · -- the freshly created entry
      have hold : s.graph.blocks.filter
          (fun n => n.memory_ref == some s.nextMemId) = [] := by
        rw [List.filter_eq_nil_iff]
        intro n hn
        cases hmr : n.memory_ref with
        | none => simp [hmr]
        | some i =>
            have := hfn n hn i hmr
            simp [hmr, Nat.ne_of_lt this]
      have hnodes : nodesFor
          ⟨(⟨s.nextMemId, content, layer, clampQ imp 0 1, tag, now, s.graph.nextId⟩ :
              MemoryEntry) :: s.memories,
           ⟨(⟨s.graph.nextId, content, "memory", now, some s.nextMemId⟩ : GraphNode) ::
              s.graph.blocks, s.graph.edges, s.graph.nextId + 1⟩,
           s.nextMemId + 1⟩ s.nextMemId =
          [⟨s.graph.nextId, content, "memory", now, some s.nextMemId⟩] := by
        unfold nodesFor
        dsimp only
        rw [List.filter_cons_of_pos (by simp), hold]
      exact hnodes ▸ ⟨rfl, by
        intro n hn
        rcases List.mem_singleton.mp hn with rfl
        exact ⟨rfl, rfl⟩⟩
    · -- a pre-existing entry keeps its unique node
      have hid : e.id < s.nextMemId := hfe e he
      have hskip : nodesFor
          ⟨(⟨s.nextMemId, content, layer, clampQ imp 0 1, tag, now, s.graph.nextId⟩ :
              MemoryEntry) :: s.memories,
           ⟨(⟨s.graph.nextId, content, "memory", now, some s.nextMemId⟩ : GraphNode) ::
              s.graph.blocks, s.graph.edges, s.graph.nextId + 1⟩,
           s.nextMemId + 1⟩ e.id = nodesFor s e.id := by
        unfold nodesFor
        dsimp only
        rw [List.filter_cons_of_neg (by simp [Nat.ne_of_gt hid])]
      rw [hskip]
      exact hinv e he
  · -- entry-id freshness
    intro e he
    rcases List.mem_cons.mp he with rfl | he
    · exact Nat.lt_succ_self _
    · exact Nat.lt_succ_of_lt (hfe e he)
  · -- node back-reference freshness
    intro n hn i hi
    rcases List.mem_cons.mp hn with rfl | hn
    · cases hi
      exact Nat.lt_succ_self _
    · exact Nat.lt_succ_of_lt (hfn n hn i hi)

/-- Witness for C4: remembering one entry in the empty well-formed store adds
exactly one graph node. -/
theorem remember_creates_one_graph_node_witness :
    (wellFormed HopeStore.empty ∧ "first truth" ≠ "") ∧
      (remember HopeStore.empty "first truth" "long_term" 1 none 0).2.graph.blocks.length =
        HopeStore.empty.graph.blocks.length + 1 :=
  ⟨⟨wellFormed_empty, by decide⟩,
   (remember_creates_one_graph_node HopeStore.empty "first truth" "long_term" 1 none 0
      wellFormed_empty (by decide)).1⟩

/-- The ranking order projected to returned entries: importance descending,
then `created_at` descending (the tertiary direct/associative key lives on the
internal scored candidates). -/
def entryRankRel (a b : MemoryEntry) : Prop :=
  b.importance < a.importance ∨
    (a.importance = b.importance ∧ b.created_at ≤ a.created_at)

theorem rankRel_entry {a b : Scored} (h : rankRel a b) :
    entryRankRel a.entry b.entry := by
  unfold rankRel at h
  unfold entryRankRel
  rcases h with h | ⟨h1, h2 | ⟨h2, _⟩⟩
  · exact Or.inl h
  · exact Or.inr ⟨h1, le_of_lt h2⟩
  · exact Or.inr ⟨h1, le_of_eq h2.symm⟩

/-- The three fixture entries of the spec's ordering test: importances 0.9,
0.5, 0.5 at layer `long_term`, created at strictly increasing timestamps. -/
def exEntry1 : MemoryEntry := ⟨0, "truth of identity", "long_term", mkRat 9 10, none, 1, 0⟩

def exEntry2 : MemoryEntry := ⟨1, "truth of purpose", "long_term", mkRat 1 2, none, 2, 1⟩

def exEntry3 : MemoryEntry := ⟨2, "truth of growth", "long_term", mkRat 1 2, none, 3, 2⟩

/-- A store holding the three fixture entries with their graph nodes. -/
def exStore : HopeStore :=
  ⟨[exEntry1, exEntry2, exEntry3],
   ⟨[⟨0, "truth of identity", "memory", 1, some 0⟩,
     ⟨1, "truth of purpose", "memory", 2, some 1⟩,
     ⟨2, "truth of growth", "memory", 3, some 2⟩], [], 3⟩, 3⟩

/-- Claim C1: every Recall result is ordered primarily by importance
descending, secondarily by `created_at` descending, tertiarily direct matches
before associative ones; on the fixture with importances 0.9/0.5/0.5 at layer
`long_term` and increasing timestamps, `Recall("", "long_term", 10, 0.0)`
returns the 0.9 entry first, then the two 0.5 entries most recent first. -/
theorem recall_ordering_contract :
    (∀ (s : HopeStore) (q layer : String) (minImp : ℚ),
      List.Sorted rankRel (rankedScored s q layer minImp)) ∧
    (∀ (s : HopeStore) (q layer : String) (lim : Int) (minImp : ℚ)
        (res : List MemoryEntry),
      Recall s q layer lim minImp = .ok res → List.Sorted entryRankRel res) ∧
    Recall exStore "" "long_term" 10 0 = .ok [exEntry1, exEntry3, exEntry2] := by
  have hsorted : ∀ (s : HopeStore) (q layer : String) (minImp : ℚ),
      List.Sorted rankRel (rankedScored s q layer minImp) := by
    intro s q layer minImp
    unfold rankedScored
    exact List.sorted_insertionSort rankRel _
  refine ⟨hsorted, ?_, by decide⟩
  intro s q layer lim minImp res hres
  unfold Recall at hres
  by_cases hneg : lim < 0
  · rw [if_pos hneg] at hres
    exact absurd hres (by simp)
  · rw [if_neg hneg] at hres
    simp only [Except.ok.injEq] at hres
    have hmap : List.Sorted entryRankRel (rankedEntries s q layer minImp) := by
      unfold rankedEntries
      exact (hsorted s q layer minImp).map Scored.entry fun a b hab => rankRel_entry hab
    rw [← hres]
    by_cases h0 : lim = 0
    · rw [if_pos h0]
      exact hmap
    · rw [if_neg h0]
      exact hmap.sublist (List.take_sublist _ _)

/-- Witness for C1: the ordered fixture result is sorted by the projected
ranking order. -/
theorem recall_ordering_contract_witness :
    List.Sorted entryRankRel [exEntry1, exEntry3, exEntry2] :=
  recall_ordering_contract.2.1 exStore "" "long_term" 10 0
    [exEntry1, exEntry3, exEntry2] (by decide)

end HopeOs
